import Mathlib

/-!
Verification of the Sensitive-Region Detection & Redaction Pipeline of the
banana-studio editor extension.

The definitions below are a shallow embedding of the pipeline's source:
  * `src/src/extension.ts` — `parseJsonResponse`, `blurRegions` (with its
    inlined backup-creation step, the spec's `ensureBackup`), and
    `restoreFromBackup`;
  * `src/src/types.ts` — `isValidBoundingBox`, `parseAndValidateDetections`.

JavaScript strings are modelled as `List Char` / `String`, JS numbers as `ℚ`
(the source only ever rounds and compares them; rational arithmetic agrees
with IEEE doubles on every concrete input used here), `JSON.parse` as a
fuel-based total parser returning `Option Json` (`none` = the exception the
source catches), and the filesystem as an association list from paths to
file data.  The Jimp image collaborator (§6 of the spec) enters only through
an `ImageOps` interface record.
-/

/- The core `Rat` operations are marked irreducible upstream, which blocks
`decide`/`rfl` evaluation of the embedded functions on concrete inputs;
restore the default reducibility so concrete executions reduce. -/
set_option allowUnsafeReducibility true
attribute [semireducible] Rat.mul Rat.div Rat.add Rat.sub Rat.neg Rat.inv Rat.blt

namespace BananaStudio

/-- A parsed JSON value (the runtime value produced by `JSON.parse`).
Object fields keep their textual order; duplicate keys are resolved by
`jLookup`, which takes the last binding, as JS object literals do. -/
inductive Json where
  | null
  | bool (b : Bool)
  | num (q : ℚ)
  | str (s : String)
  | arr (elems : List Json)
  | obj (fields : List (String × Json))

/-- JS object property read `o[k]`: the last binding of `k` wins. -/
def jLookup (fields : List (String × Json)) (k : String) : Option Json :=
  fields.foldl (fun acc p => if p.1 = k then some p.2 else acc) none

/-! ### A model of `JSON.parse`

Total, fuel-based recursive-descent parser for the JSON grammar; `none`
models the `SyntaxError` the source catches.  Numbers are kept as exact
rationals rather than doubles; lone `\u` surrogate escapes decode to the
null character instead of an unpaired surrogate — neither difference is
observable in any statement below. -/

/-- JSON insignificant whitespace. -/
def isJsonWs (c : Char) : Bool :=
  c = ' ' || c = '\t' || c = '\n' || c = '\r'

def skipWs (s : List Char) : List Char :=
  s.dropWhile isJsonWs

def hexVal (c : Char) : Option Nat :=
  if '0' ≤ c ∧ c ≤ '9' then some (c.toNat - 48)
  else if 'a' ≤ c ∧ c ≤ 'f' then some (c.toNat - 87)
  else if 'A' ≤ c ∧ c ≤ 'F' then some (c.toNat - 55)
  else none

def escChar (c : Char) : Option Char :=
  match c with
  | '"' => some '"'
  | '\\' => some '\\'
  | '/' => some '/'
  | 'b' => some (Char.ofNat 8)
  | 'f' => some (Char.ofNat 12)
  | 'n' => some '\n'
  | 'r' => some '\r'
  | 't' => some '\t'
  | _ => none

/-- Body of a JSON string literal, after the opening quote: returns the
decoded content and the remainder after the closing quote.  Unescaped
control characters are a syntax error, as in `JSON.parse`. -/
def parseStringBody (s : List Char) : Option (List Char × List Char) :=
  match s with
  | [] => none
  | '"' :: r => some ([], r)
  | '\\' :: r =>
    match r with
    | [] => none
    | 'u' :: h1 :: h2 :: h3 :: h4 :: r' =>
      match hexVal h1, hexVal h2, hexVal h3, hexVal h4 with
      | some a, some b, some c, some d =>
        (parseStringBody r').map
          (fun p => (Char.ofNat (((a * 16 + b) * 16 + c) * 16 + d) :: p.1, p.2))
      | _, _, _, _ => none
    | e :: r' =>
      match escChar e with
      | some c => (parseStringBody r').map (fun p => (c :: p.1, p.2))
      | none => none
  | c :: r =>
    if c.toNat < 32 then none
    else (parseStringBody r).map (fun p => (c :: p.1, p.2))

def digitsToNat (ds : List Char) : Nat :=
  ds.foldl (fun a c => 10 * a + (c.toNat - 48)) 0

/-- Value `10 ^ z` as a rational, for an integer exponent. -/
def qPow10 (z : ℤ) : ℚ :=
  if 0 ≤ z then ((10 : ℚ) ^ z.toNat) else ((10 : ℚ) ^ (-z).toNat)⁻¹

/-- Assemble a JSON number from its parts. -/
def mkNum (neg : Bool) (intDs fracDs : List Char) (exp : ℤ) : ℚ :=
  let mant : ℚ := (digitsToNat (intDs ++ fracDs) : ℚ)
  let mag : ℚ := mant * qPow10 (exp - fracDs.length)
  if neg then -mag else mag

/-- JSON number literal grammar: `-? (0 | [1-9][0-9]*) (. [0-9]+)? ([eE][+-]?[0-9]+)?`.
A leading `0` is not followed by further integer digits (so `01` leaves a
trailing `1` that makes the enclosing parse fail, exactly as in JS). -/
def parseNumber (s : List Char) : Option (ℚ × List Char) :=
  let (neg, s1) : Bool × List Char :=
    match s with
    | '-' :: r => (true, r)
    | _ => (false, s)
  match s1 with
  | [] => none
  | c :: r =>
    if c = '0' then
      some (finish neg ['0'] r)
    else if c.isDigit then
      let (ds, r') := r.span Char.isDigit
      some (finish neg (c :: ds) r')
    else none
where
  /-- Parse the optional fraction and exponent and build the value. -/
  finish (neg : Bool) (intDs : List Char) (s : List Char) : ℚ × List Char :=
    let (fracDs, s2) : List Char × List Char :=
      match s with
      | '.' :: r =>
        let (ds, r') := r.span Char.isDigit
        if ds.isEmpty then ([], s) else (ds, r')
      | _ => ([], s)
    -- a '.' with no digit after it is a syntax error in JSON; we signal it
    -- by leaving the '.' unconsumed, which fails the enclosing parse.
    let (exp, s3) : ℤ × List Char :=
      match s2 with
      | e :: r =>
        if e = 'e' ∨ e = 'E' then
          let (esign, r1) : Bool × List Char :=
            match r with
            | '+' :: rr => (false, rr)
            | '-' :: rr => (true, rr)
            | _ => (false, r)
          let (ds, r2) := r1.span Char.isDigit
          if ds.isEmpty then (0, s2)
          else ((if esign then -(digitsToNat ds : ℤ) else (digitsToNat ds : ℤ)), r2)
        else (0, s2)
      | [] => (0, s2)
    (mkNum neg intDs fracDs exp, s3)

def stripPrefixL (pat : List Char) (s : List Char) : Option (List Char) :=
  match pat, s with
  | [], s => some s
  | p :: ps, c :: cs => if p = c then stripPrefixL ps cs else none
  | _ :: _, [] => none

mutual

/-- One JSON value, leading whitespace allowed; returns the remainder. -/
def parseVal : Nat → List Char → Option (Json × List Char)
  | 0, _ => none
  | fuel + 1, s =>
    let s := skipWs s
    match s with
    | [] => none
    | '{' :: r =>
      let r' := skipWs r
      match r' with
      | '}' :: r'' => some (Json.obj [], r'')
      | _ => (parseMembers fuel r').map (fun p => (Json.obj p.1, p.2))
    | '[' :: r =>
      let r' := skipWs r
      match r' with
      | ']' :: r'' => some (Json.arr [], r'')
      | _ => (parseElems fuel r').map (fun p => (Json.arr p.1, p.2))
    | '"' :: r =>
      (parseStringBody r).map (fun p => (Json.str (String.mk p.1), p.2))
    | c :: _ =>
      if c = 't' then (stripPrefixL ['t','r','u','e'] s).map (Json.bool true, ·)
      else if c = 'f' then (stripPrefixL ['f','a','l','s','e'] s).map (Json.bool false, ·)
      else if c = 'n' then (stripPrefixL ['n','u','l','l'] s).map (Json.null, ·)
      else (parseNumber s).map (fun p => (Json.num p.1, p.2))

/-- Comma-separated array elements up to the closing `]`. -/
def parseElems : Nat → List Char → Option (List Json × List Char)
  | 0, _ => none
  | fuel + 1, s => do
    let (v, r) ← parseVal fuel s
    match skipWs r with
    | ',' :: r' => (parseElems fuel r').map (fun p => (v :: p.1, p.2))
    | ']' :: r' => some ([v], r')
    | _ => none

/-- Comma-separated object members up to the closing `}`. -/
def parseMembers : Nat → List Char → Option (List (String × Json) × List Char)
  | 0, _ => none
  | fuel + 1, s =>
    match skipWs s with
    | '"' :: r => do
      let (key, r1) ← parseStringBody r
      match skipWs r1 with
      | ':' :: r2 => do
        let (v, r3) ← parseVal fuel r2
        match skipWs r3 with
        | ',' :: r4 =>
          (parseMembers fuel r4).map (fun p => ((String.mk key, v) :: p.1, p.2))
        | '}' :: r4 => some ([(String.mk key, v)], r4)
        | _ => none
      | _ => none
    | _ => none

end

/-- Model of `JSON.parse`: parse one value and require only trailing
whitespace after it; `none` models the thrown `SyntaxError`. -/
def jsonParse (text : String) : Option Json :=
  match parseVal (text.length + 1) text.toList with
  | some (v, rest) => if (skipWs rest).isEmpty then some v else none
  | none => none

/-! ### String helpers used by the source's regex matches -/

/-- Split at the first occurrence of `pat`: `some (before, after)` with
`l = before ++ pat ++ after` and no occurrence of `pat` starting inside
`before`. -/
def splitFirst (pat : List Char) : List Char → Option (List Char × List Char)
  | [] => if pat.isEmpty then some ([], []) else none
  | c :: cs =>
    if pat.isPrefixOf (c :: cs) then some ([], (c :: cs).drop pat.length)
    else (splitFirst pat cs).map (fun p => (c :: p.1, p.2))

/-- JS `String.prototype.includes`. -/
def strIncludes (s pat : String) : Bool :=
  (splitFirst pat.toList s.toList).isSome

/-- JS `String.prototype.replace` with a string pattern: replaces the first
occurrence only. -/
def replaceFirst (s pat repl : String) : String :=
  match splitFirst pat.toList s.toList with
  | none => s
  | some (before, after) => String.mk (before ++ repl.toList ++ after)

/-- JS whitespace for `trim` / regex `\s` (ASCII part, which is all the
source's payloads contain). -/
def isJsWs (c : Char) : Bool :=
  isJsonWs c || c = Char.ofNat 11 || c = Char.ofNat 12

def trimL (l : List Char) : List Char :=
  ((l.dropWhile isJsWs).reverse.dropWhile isJsWs).reverse

/-- The fenced-code-block match
`text.match(/` ``` `(?:json)?\s*([\s\S]*?)` ``` `/)` followed by
`match[1].trim()`: the text between the first triple-backtick (skipping an
immediately following `json` tag) and the next triple-backtick, trimmed.
(The greedy `\s*` only removes leading whitespace from the group, which the
subsequent `.trim()` removes anyway, so it is folded into the trim.) -/
def fencedInner (text : String) : Option String :=
  match splitFirst ['`','`','`'] text.toList with
  | none => none
  | some (_, afterOpen) =>
    let afterTag : List Char :=
      match stripPrefixL ['j','s','o','n'] afterOpen with
      | some r => r
      | none => afterOpen
    match splitFirst ['`','`','`'] afterTag with
    | none => none
    | some (inner, _) => some (String.mk (trimL inner))

/-- The bracket match `text.match(/\[[\s\S]*\]/)`: the substring from the
first `[` to the last `]`, when the first `[` precedes the last `]`. -/
def bracketSub (text : String) : Option String :=
  let l := text.toList
  match l.span (· ≠ '[') with
  | (_, []) => none
  | (_, rest) =>
    match rest.reverse.span (· ≠ ']') with
    | (_, []) => none
    | (_, rev') => some (String.mk rev'.reverse)

/-! ### The Response Parser (`parseJsonResponse`, `src/src/extension.ts`) -/

/-- Function `parseJsonResponse` from `src/src/extension.ts`: direct `JSON.parse`;
on failure, if a fenced code block is present its inner text's parse is the
result (`[]` when that inner parse fails — the bracket fallback is *not*
reached in that case); only when no fenced block exists is the first
`[ ... ]` substring tried; `[]` when everything fails. -/
def parseJsonResponse (text : String) : Json :=
  match jsonParse text with
  | some v => v
  | none =>
    match fencedInner text with
    | some inner =>
      match jsonParse inner with
      | some v => v
      | none => Json.arr []
    | none =>
      match bracketSub text with
      | some s =>
        match jsonParse s with
        | some v => v
        | none => Json.arr []
      | none => Json.arr []

/-! ### The Detection Validator (`src/src/types.ts`) -/

/-- Function `isValidBoundingBox` from `src/src/types.ts`: a non-null `object` value
whose `box_2d` property is an array of exactly 4 numbers.  A JS array is
`typeof 'object'` but has no `box_2d` property, so it fails the
`Array.isArray(b.box_2d)` test; primitives fail the `typeof` test. -/
def isValidBoundingBox (j : Json) : Bool :=
  match j with
  | Json.obj fields =>
    match jLookup fields ("box_2d") with
    | some (Json.arr xs) =>
      xs.length = 4 && xs.all (fun x => match x with | Json.num _ => true | _ => false)
    | _ => false
  | _ => false

/-- Function `parseAndValidateDetections` from `src/src/types.ts`.  Its fallback
nesting differs from `parseJsonResponse`: when no fenced block is present it
returns `[]` immediately (no bracket fallback), and the bracket fallback
runs only when a fenced block was found but its inner text failed to parse.
A successful parse that is not an array also yields `[]`. -/
def parseAndValidateDetections (text : String) : List Json :=
  let parsed? : Option Json :=
    match jsonParse text with
    | some v => some v
    | none =>
      match fencedInner text with
      | none => none
      | some inner =>
        match jsonParse inner with
        | some v => some v
        | none =>
          match bracketSub text with
          | none => none
          | some s => jsonParse s
  match parsed? with
  | some (Json.arr xs) => xs.filter isValidBoundingBox
  | _ => []

/-! ### The Coordinate Mapper (`blurRegions` loop body, `src/src/extension.ts`) -/

/-- JS `Math.round`: round half toward `+∞`.  (`Rat.floor` is the floor
function on `ℚ`, used directly for computability.) -/
def jsRound (q : ℚ) : ℤ := Rat.floor (q + 1 / 2)

/-- The raw geometry computed for one detection by `blurRegions`
(`src/src/extension.ts`): scale the normalized `[0,1000]` box to pixels,
round, clamp `x`/`y` into the image, clamp `w`/`h` to the remaining space.
Returns `(x, y, w, h)` before the `w <= 0 || h <= 0` rejection test. -/
def mapRegionRaw (W H : ℕ) (ymin xmin ymax xmax : ℚ) : ℤ × ℤ × ℤ × ℤ :=
  let x0 := jsRound (xmin / 1000 * W)
  let y0 := jsRound (ymin / 1000 * H)
  let w0 := jsRound ((xmax - xmin) / 1000 * W)
  let h0 := jsRound ((ymax - ymin) / 1000 * H)
  let x := max 0 (min x0 ((W : ℤ) - 1))
  let y := max 0 (min y0 ((H : ℤ) - 1))
  let w := min w0 ((W : ℤ) - x)
  let h := min h0 ((H : ℤ) - y)
  (x, y, w, h)

/-- The Coordinate Mapper: the clamped rectangle, or `none` when the source
skips the detection because `w <= 0 || h <= 0`. -/
def mapRegion (W H : ℕ) (ymin xmin ymax xmax : ℚ) : Option (ℤ × ℤ × ℤ × ℤ) :=
  match mapRegionRaw W H ymin xmin ymax xmax with
  | (x, y, w, h) => if w ≤ 0 ∨ h ≤ 0 then none else some (x, y, w, h)

/-! ### JS numeric coercion

`blurRegions` destructures `box_2d` and does arithmetic on the elements;
JS coerces them with `ToNumber`.  `none` stands for `NaN`.  The decimal,
hexadecimal, octal and binary string forms are modelled; the `Infinity`
forms are not representable in `ℚ` and remain unmodelled — a detection
carrying one is classified on the throwing side, never as skipped, so
the theorems below stay sound and merely do not cover it. -/

/-- Optional exponent suffix of a decimal numeric string; the whole
remainder must be consumed. -/
def expSuffix (l : List Char) : Option ℤ :=
  match l with
  | [] => some 0
  | e :: r =>
    if e = 'e' ∨ e = 'E' then
      let (esign, r1) : Bool × List Char :=
        match r with
        | '+' :: rr => (false, rr)
        | '-' :: rr => (true, rr)
        | _ => (false, r)
      let (ds, r2) := r1.span Char.isDigit
      if ds.isEmpty ∨ ¬r2.isEmpty then none
      else some (if esign then -(digitsToNat ds : ℤ) else (digitsToNat ds : ℤ))
    else none

/-- Signed decimal string form of JS `ToNumber` (`StrDecimalLiteral`). -/
def decimalNum (l : List Char) : Option ℚ :=
  let (neg, l1) : Bool × List Char :=
    match l with
    | '+' :: r => (false, r)
    | '-' :: r => (true, r)
    | _ => (false, l)
  let (intDs, l2) := l1.span Char.isDigit
  let (fracDs, l3) : List Char × List Char :=
    match l2 with
    | '.' :: r => r.span Char.isDigit
    | _ => ([], l2)
  if intDs.isEmpty ∧ fracDs.isEmpty then none
  else (expSuffix l3).map (fun e => mkNum neg intDs fracDs e)

/-- Unsigned `0x`/`0o`/`0b` string forms of JS `ToNumber`: every remaining
character must be a digit of the radix. -/
def radixNum (radix : ℕ) (ds : List Char) : Option ℚ :=
  if ds.isEmpty then none
  else if ds.all (fun c => match hexVal c with | some k => k < radix | none => false) then
    some ((ds.foldl (fun a c => radix * a + ((hexVal c).getD 0)) 0 : ℕ) : ℚ)
  else none

/-- JS `ToNumber` applied to a string (`Number(s)` for a JSON-string
element): trimmed; empty → 0; a signed decimal literal or an unsigned
hexadecimal/octal/binary literal; `NaN` otherwise (a sign before a radix
prefix is `NaN` in JS, and falls out of the decimal grammar here too). -/
def strToNum (s : String) : Option ℚ :=
  let l := trimL s.toList
  if l.isEmpty then some 0
  else
    match l with
    | '0' :: x :: ds =>
      if x = 'x' ∨ x = 'X' then radixNum 16 ds
      else if x = 'o' ∨ x = 'O' then radixNum 8 ds
      else if x = 'b' ∨ x = 'B' then radixNum 2 ds
      else decimalNum l
    | _ => decimalNum l

/-- JS `ToNumber` on a JSON value (`none` = `NaN`).  A one-element array
coerces through its string form, which for the shapes arising from JSON
agrees with coercing the element (booleans and objects inside stringify to
non-numeric text). -/
def toNum : Json → Option ℚ
  | Json.num q => some q
  | Json.bool b => some (if b then 1 else 0)
  | Json.null => some 0
  | Json.str s => strToNum s
  | Json.arr [] => some 0
  | Json.arr [Json.num q] => some q
  | Json.arr [Json.null] => some 0
  | Json.arr [Json.str s] => strToNum s
  | Json.arr [Json.arr ys] => toNum (Json.arr ys)
  | Json.arr _ => none
  | Json.obj _ => none

/-- JS falsiness of a JSON value (the `!detection.box_2d` test). -/
def jsFalsy : Json → Bool
  | Json.null => true
  | Json.bool b => !b
  | Json.num q => q = 0
  | Json.str s => s.isEmpty
  | _ => false

/-- JS UTF-16 length of a string: astral code points occupy two units. -/
def utf16Len (s : String) : ℕ :=
  (s.toList.map (fun c => if c.toNat < 65536 then 1 else 2)).sum

/-- JS property read `v.length`, as the JS value it yields: an array
exposes its element count, a string its UTF-16 unit count, and a plain
object its own `length` field when it has one (reachable from JSON, e.g.
`\x7b"length": 4\x7d`); everything else gives `undefined` (`none`). -/
def jsLengthVal : Json → Option Json
  | Json.arr xs => some (Json.num xs.length)
  | Json.str s => some (Json.num (utf16Len s))
  | Json.obj fields => jLookup fields ("length")
  | _ => none

/-- What one iteration of the `blurRegions` detection loop does with one
detection record:
  * `skip` — `continue` (falsy `box_2d`, a `.length` value that is not the
    number 4, or a mapped rectangle rejected by `w <= 0 || h <= 0`);
  * `region x y w h` — crop/blur/composite this rectangle and count it;
  * `err` — the iteration throws, aborting the whole call: `null.box_2d`
    is a `TypeError`; destructuring a non-iterable `box_2d` whose `length`
    field is 4 is a `TypeError`; a 4-unit string that is not four BMP code
    points (string destructuring iterates by code points, padding with
    `undefined`), or a non-numeric element, produces `NaN` geometry, which
    passes the `w <= 0 || h <= 0` guard and is then rejected by Jimp's
    crop. -/
inductive DetStep where
  | skip
  | region (x y w h : ℤ)
  | err
deriving DecidableEq, Repr

/-- The arithmetic on the four destructured `box_2d` elements: a `NaN`
among them (a `none`) aborts at Jimp's crop, otherwise the mapped
rectangle is redacted, or the detection is skipped as degenerate. -/
def destructured (W H : ℕ) (elems : List (Option ℚ)) : DetStep :=
  match elems with
  | [some ymin, some xmin, some ymax, some xmax] =>
    match mapRegion W H ymin xmin ymax xmax with
    | some (x, y, w, h) => DetStep.region x y w h
    | none => DetStep.skip
  | _ => DetStep.err

def detStep (W H : ℕ) (det : Json) : DetStep :=
  match det with
  | Json.null => DetStep.err
  | Json.obj fields =>
    match jLookup fields ("box_2d") with
    | none => DetStep.skip
    | some v =>
      if jsFalsy v then DetStep.skip
      else
        match jsLengthVal v with
        | some (Json.num q) =>
          if q = 4 then
            match v with
            | Json.arr xs => destructured W H (xs.map toNum)
            | Json.str s =>
              if s.toList.length = 4 then
                destructured W H (s.toList.map (fun c => strToNum (String.mk [c])))
              else DetStep.err
            | _ => DetStep.err
          else DetStep.skip
        | _ => DetStep.skip
  | _ => DetStep.skip

/-! ### Path handling (Node `path`, posix) -/

/-- Split at the last occurrence of `c`: `some (before, after)` with
`l = before ++ c :: after` and no `c` in `after`. -/
def lastSplit (c : Char) : List Char → Option (List Char × List Char)
  | [] => none
  | x :: xs =>
    match lastSplit c xs with
    | some (b, a) => some (x :: b, a)
    | none => if x = c then some ([], xs) else none

/-- Last path component (`path.basename` without a suffix argument). -/
def baseL (l : List Char) : List Char :=
  match lastSplit '/' l with
  | none => l
  | some (_, b) => b

/-- Node `path.extname`: from the last `.` of the last component, unless that
dot is its first character; `..` has no extension. -/
def extnameL (l : List Char) : List Char :=
  if baseL l = ['.', '.'] then []
  else
    match lastSplit '.' (baseL l) with
    | none => []
    | some (s, e) => if s.isEmpty then [] else '.' :: e

/-- Node `path.basename(p, ext)`: the last component, with `ext` removed when it
is a proper suffix of it. -/
def basenameExtL (l ext : List Char) : List Char :=
  if ¬ext.isEmpty ∧ ext ≠ baseL l ∧ ext.isSuffixOf (baseL l) then
    (baseL l).take ((baseL l).length - ext.length)
  else baseL l

/-- Node `path.join(dir, name)` for the shapes `path.dirname` produces.  (Node
also collapses duplicate slashes for directory strings that themselves end
in `/`; such paths do not change any statement below.) -/
def joinL (dir name : List Char) : List Char :=
  if dir = ['.'] then name
  else if dir = ['/'] then '/' :: name
  else dir ++ '/' :: name

/-- Node `path.dirname`. -/
def dirnameL (l : List Char) : List Char :=
  match lastSplit '/' l with
  | none => ['.']
  | some ([], _) => ['/']
  | some (d, _) => d

def extname (p : String) : String := String.mk (extnameL p.toList)
def dirname (p : String) : String := String.mk (dirnameL p.toList)
def basenameExt (p ext : String) : String := String.mk (basenameExtL p.toList ext.toList)
def joinPath (dir name : String) : String := String.mk (joinL dir.toList name.toList)

/-- The backup path computed by `blurRegions`:
`path.join(dir, baseName + "_backup" + ext)`. -/
def backupPathOf (imagePath : String) : String :=
  let ext := extname imagePath
  let baseName := basenameExt imagePath ext
  let dir := dirname imagePath
  joinPath dir (baseName ++ "_backup" ++ ext)

/-! ### Filesystem model -/

/-- The decoded image the Jimp collaborator hands back: true pixel
dimensions plus an opaque pixel payload. -/
structure Image where
  width : Nat
  height : Nat
  pix : List Nat
deriving DecidableEq, Repr

/-- Bytes sitting on disk: either an encoded image or opaque bytes. -/
inductive FileData where
  | img (i : Image)
  | raw (bytes : List Nat)
deriving DecidableEq, Repr

/-- The filesystem: an association from paths to file contents. -/
abbrev FS := List (String × FileData)

def fsLookup (fs : FS) (p : String) : Option FileData :=
  match fs with
  | [] => none
  | (q, d) :: rest => if q = p then some d else fsLookup rest p

def fsRemove : FS → String → FS
  | [], _ => []
  | e :: rest, p => if e.1 = p then fsRemove rest p else e :: fsRemove rest p

def fsWrite (fs : FS) (p : String) (d : FileData) : FS :=
  (p, d) :: fsRemove fs p

/-- Decoding `Jimp.read`: decoding succeeds only on image bytes. -/
def decodeFile : FileData → Option Image
  | FileData.img i => some i
  | FileData.raw _ => none

/-! ### Backup Guardian and Redaction Engine (`src/src/extension.ts`) -/

/-- The backup-creation step inlined at the top of `blurRegions` (the
spec's `ensureBackup`): if no file exists at the backup path, copy the
image's current bytes there; `none` models `fs.copyFileSync` throwing
because the source file is missing. -/
def ensureBackup (fs : FS) (imagePath : String) : Option FS :=
  let backupPath := backupPathOf imagePath
  if (fsLookup fs backupPath).isSome then some fs
  else
    match fsLookup fs imagePath with
    | some d => some (fsWrite fs backupPath d)
    | none => none

/-- The Jimp pixel operations (§6 external collaborator): only their
signatures matter to the claims. -/
structure ImageOps where
  crop : Image → ℤ → ℤ → ℤ → ℤ → Image
  blur : Image → ℤ → Image
  composite : Image → Image → ℤ → ℤ → Image
  encode : Image → FileData

/-- A trivial instantiation of the collaborator, used to evaluate the
operations on concrete inputs. -/
def trivialOps : ImageOps where
  crop := fun i _ _ _ _ => i
  blur := fun i _ => i
  composite := fun i _ _ _ => i
  encode := FileData.img

/-- The detection loop of `blurRegions`: fold the detections over the
single mutable image buffer, counting redacted regions; `none` models an
exception escaping the loop.  `W`/`H` are the constants read from the
decoded image before the loop. -/
def blurLoop (ops : ImageOps) (radius : ℤ) (W H : Nat) :
    List Json → Image → Nat → Option (Image × Nat)
  | [], img, n => some (img, n)
  | det :: ds, img, n =>
    match detStep W H det with
    | DetStep.skip => blurLoop ops radius W H ds img n
    | DetStep.err => none
    | DetStep.region x y w h =>
      let blurred := ops.blur (ops.crop img x y w h) radius
      blurLoop ops radius W H ds (ops.composite img blurred x y) (n + 1)

/-- Outcome of one `blurRegions` call: completion with the number of
regions redacted (a warning message, not an error, when it is 0), or the
caught-exception path.  Both carry the resulting filesystem. -/
inductive BlurResult where
  | ok (regionsBlurred : Nat) (fs : FS)
  | error (fs : FS)
deriving DecidableEq, Repr

/-- Function `blurRegions` from `src/src/extension.ts`: create the backup if absent,
decode the image, map and blur each detection, and persist the buffer back
to `imagePath` only when at least one region was redacted. -/
def blurRegions (ops : ImageOps) (blurIntensity : ℚ) (fs : FS)
    (imagePath : String) (detections : List Json) : BlurResult :=
  let blurRadius : ℤ := min (max (jsRound (blurIntensity / 2)) 1) 100
  match ensureBackup fs imagePath with
  | none => BlurResult.error fs
  | some fs1 =>
    match (fsLookup fs1 imagePath).bind decodeFile with
    | none => BlurResult.error fs1
    | some img =>
      match blurLoop ops blurRadius img.width img.height detections img 0 with
      | none => BlurResult.error fs1
      | some (img', n) =>
        if 0 < n then BlurResult.ok n (fsWrite fs1 imagePath (ops.encode img'))
        else BlurResult.ok 0 fs1

/-- Outcome of `restoreFromBackup`. -/
inductive RestoreResult where
  | noPath
  | notBackup
  | restored (fs : FS)
  | ioError (fs : FS)
deriving DecidableEq, Repr

/-- Function `restoreFromBackup` from `src/src/extension.ts`: reject an empty path;
reject a path not *containing* `_backup`; otherwise compute the original
path by deleting the first occurrence of `_backup` from the basename, copy
the given file's bytes there, and delete the given file. -/
def restoreFromBackup (fs : FS) (backupPath : String) : RestoreResult :=
  if backupPath = "" then RestoreResult.noPath
  else if ¬strIncludes backupPath ("_backup") then RestoreResult.notBackup
  else
    let ext := extname backupPath
    let dir := dirname backupPath
    let backupBaseName := basenameExt backupPath ext
    let originalBaseName := replaceFirst backupBaseName ("_backup") ""
    let originalPath := joinPath dir (originalBaseName ++ ext)
    match fsLookup fs backupPath with
    | none => RestoreResult.ioError fs
    | some d => RestoreResult.restored (fsRemove (fsWrite fs originalPath d) backupPath)

/-! ### Definitions taken from the specification's words

Each `spec…` definition below transcribes a sentence of the spec (not the
source) and exists only to be compared against the corresponding
source-derived definition. -/

/-- The fallback chain exactly as the spec states it: direct parse; then
the fenced block's inner text; then — whenever *that* also failed, fenced
block present or not — the first `[ ... ]` substring; empty only if all
attempts fail. -/
def specFallbackChain (text : String) : Json :=
  match jsonParse text with
  | some v => v
  | none =>
    match (fencedInner text).bind jsonParse with
    | some v => v
    | none =>
      match (bracketSub text).bind jsonParse with
      | some v => v
      | none => Json.arr []

/-- The backup naming convention as the spec states it: the fixed marker
`_backup` inserted before the extension, i.e. the extension-stripped
basename ends in `_backup`. -/
def specIsBackupName (p : String) : Bool :=
  "_backup".toList.isSuffixOf (basenameExt p (extname p)).toList

/-- The Coordinate Mapper algorithm exactly as §4.3 states it: round the
scaled coordinates, clamp `x`/`y` into bounds, clamp the dimensions to the
remaining space, and reject when `width ≤ 0` or `height ≤ 0`. -/
def specMapRegion (W H : ℕ) (ymin xmin ymax xmax : ℚ) : Option (ℤ × ℤ × ℤ × ℤ) :=
  let x := jsRound (xmin / 1000 * W)
  let y := jsRound (ymin / 1000 * H)
  let width := jsRound ((xmax - xmin) / 1000 * W)
  let height := jsRound ((ymax - ymin) / 1000 * H)
  let x' := max 0 (min x ((W : ℤ) - 1))
  let y' := max 0 (min y ((H : ℤ) - 1))
  let width' := min width ((W : ℤ) - x')
  let height' := min height ((H : ℤ) - y')
  if width' ≤ 0 ∨ height' ≤ 0 then none else some (x', y', width', height')

/-- A structurally valid detection record as the spec states it: a non-null
object whose `box_2d` field is an array of exactly 4 elements, all
numeric. -/
def specValidDetection (j : Json) : Prop :=
  ∃ fields bs, j = Json.obj fields ∧ jLookup fields ("box_2d") = some (Json.arr bs) ∧
    bs.length = 4 ∧ ∀ x ∈ bs, ∃ q, x = Json.num q

/-! ### Support lemmas -/

theorem fsLookup_remove_ne (fs : FS) (p q : String) (h : p ≠ q) :
    fsLookup (fsRemove fs p) q = fsLookup fs q := by
  induction fs with
  | nil => rfl
  | cons e rest ih =>
    by_cases he : e.1 = p
    · have heq : e.1 ≠ q := fun hq => h (he.symm.trans hq)
      simp [fsRemove, fsLookup, he, heq, h, ih]
    · have hqp : q ≠ p := fun hx => h hx.symm
      by_cases hq : e.1 = q <;> simp [fsRemove, fsLookup, he, hq, h, hqp, ih]

theorem fsLookup_write_self (fs : FS) (p : String) (d : FileData) :
    fsLookup (fsWrite fs p d) p = some d := by
  simp [fsWrite, fsLookup]

theorem fsLookup_write_ne (fs : FS) (p q : String) (d : FileData) (h : p ≠ q) :
    fsLookup (fsWrite fs p d) q = fsLookup fs q := by
  simp [fsWrite, fsLookup, h, fsLookup_remove_ne fs p q h]

theorem lastSplit_append (c : Char) (l b a : List Char)
    (h : lastSplit c l = some (b, a)) : l = b ++ c :: a := by
  induction l generalizing b a with
  | nil => simp [lastSplit] at h
  | cons x xs ih =>
    rw [lastSplit] at h
    cases hx : lastSplit c xs with
    | some p =>
      rw [hx] at h
      cases h
      simpa using congrArg (x :: ·) (ih p.1 p.2 (by rw [hx]))
    | none =>
      rw [hx] at h
      by_cases hc : x = c
      · simp [hc] at h
        obtain ⟨hb, ha⟩ := h
        simp [← hb, ← ha, hc]
      · simp [hc] at h

/-- The extension-stripped basename and the extension partition the
basename. -/
theorem basenameExt_extname_length (l : List Char) :
    (basenameExtL l (extnameL l)).length + (extnameL l).length = (baseL l).length := by
  by_cases hdd : baseL l = ['.', '.']
  · have hext : extnameL l = [] := by unfold extnameL; rw [if_pos hdd]
    have hstem : basenameExtL l (extnameL l) = baseL l := by
      unfold basenameExtL; rw [hext]; simp
    rw [hstem, hext]; simp
  · cases hs : lastSplit '.' (baseL l) with
    | none =>
      have hext : extnameL l = [] := by unfold extnameL; rw [if_neg hdd, hs]
      have hstem : basenameExtL l (extnameL l) = baseL l := by
        unfold basenameExtL; rw [hext]; simp
      rw [hstem, hext]; simp
    | some pr =>
      obtain ⟨s, e⟩ := pr
      by_cases hse : s.isEmpty
      · have hext : extnameL l = [] := by
          unfold extnameL; rw [if_neg hdd, hs]; simp [hse]
        have hstem : basenameExtL l (extnameL l) = baseL l := by
          unfold basenameExtL; rw [hext]; simp
        rw [hstem, hext]; simp
      · have hrec : baseL l = s ++ '.' :: e := lastSplit_append '.' (baseL l) s e hs
        have hsne : s ≠ [] := by simpa [List.isEmpty_iff] using hse
        have hlen : e.length + 1 < (baseL l).length := by
          rw [hrec]
          cases s with
          | nil => exact absurd rfl hsne
          | cons y ys => simp [List.length_append]; omega
        have hext : extnameL l = '.' :: e := by
          unfold extnameL; rw [if_neg hdd, hs]; simp [hse]
        have hne : ('.' :: e) ≠ baseL l := by
          intro hEq
          have := congrArg List.length hEq
          simp at this
          omega
        have hsuf : ('.' :: e).isSuffixOf (baseL l) := by
          rw [List.isSuffixOf_iff_suffix]
          exact ⟨s, hrec.symm⟩
        have hstem : basenameExtL l (extnameL l) =
            (baseL l).take ((baseL l).length - ('.' :: e).length) := by
          unfold basenameExtL
          rw [hext, if_pos ⟨by simp, hne, hsuf⟩]
        rw [hstem, hext]
        simp [List.length_take]
        omega

/-- List-level form of the backup path; `_backup` written out as
characters. -/
def backupTag : List Char := ['_', 'b', 'a', 'c', 'k', 'u', 'p']

theorem backupPathOf_toList (p : String) :
    (backupPathOf p).toList =
      joinL (dirnameL p.toList)
        (basenameExtL p.toList (extnameL p.toList) ++ backupTag ++ extnameL p.toList) := rfl

/-- The backup path is strictly longer than the original path. -/
theorem backupPathOf_length (p : String) :
    p.length < (backupPathOf p).length := by
  show p.toList.length < (backupPathOf p).toList.length
  rw [backupPathOf_toList]
  have hb := basenameExt_extname_length p.toList
  cases hs : lastSplit '/' p.toList with
  | none =>
    have hdir : dirnameL p.toList = ['.'] := by unfold dirnameL; rw [hs]
    have hbase : baseL p.toList = p.toList := by unfold baseL; rw [hs]
    rw [hbase] at hb
    rw [hdir]
    unfold joinL
    rw [if_pos rfl]
    simp [backupTag, List.length_append] at hb ⊢
    omega
  | some pr =>
    obtain ⟨d, a⟩ := pr
    have hrec : p.toList = d ++ '/' :: a := lastSplit_append '/' p.toList d a hs
    have hbase : baseL p.toList = a := by unfold baseL; rw [hs]
    rw [hbase] at hb
    have hplen : p.toList.length = d.length + 1 + a.length := by
      rw [hrec]; simp [List.length_append]; omega
    cases d with
    | nil =>
      have hdir : dirnameL p.toList = ['/'] := by unfold dirnameL; rw [hs]
      rw [hdir]
      unfold joinL
      rw [if_neg (by decide), if_pos rfl]
      simp [backupTag, List.length_append] at hb hplen ⊢
      omega
    | cons x xs =>
      have hdir : dirnameL p.toList = x :: xs := by unfold dirnameL; rw [hs]
      rw [hdir]
      unfold joinL
      by_cases hdot : (x :: xs : List Char) = ['.']
      · rw [if_pos hdot]
        simp [hdot, backupTag, List.length_append] at hb hplen ⊢
        omega
      · rw [if_neg hdot]
        by_cases hsl : (x :: xs : List Char) = ['/']
        · rw [if_pos hsl]
          simp [hsl, backupTag, List.length_append] at hb hplen ⊢
          omega
        · rw [if_neg hsl]
          simp [backupTag, List.length_append] at hb hplen ⊢
          omega

theorem backupPathOf_ne (p : String) : backupPathOf p ≠ p := by
  intro h
  have := backupPathOf_length p
  rw [h] at this
  exact lt_irrefl _ this

theorem mapRegionRaw_eq (W H : ℕ) (ymin xmin ymax xmax : ℚ) :
    mapRegionRaw W H ymin xmin ymax xmax =
      (max 0 (min (jsRound (xmin / 1000 * W)) ((W : ℤ) - 1)),
       max 0 (min (jsRound (ymin / 1000 * H)) ((H : ℤ) - 1)),
       min (jsRound ((xmax - xmin) / 1000 * W))
         ((W : ℤ) - max 0 (min (jsRound (xmin / 1000 * W)) ((W : ℤ) - 1))),
       min (jsRound ((ymax - ymin) / 1000 * H))
         ((H : ℤ) - max 0 (min (jsRound (ymin / 1000 * H)) ((H : ℤ) - 1)))) := rfl

theorem mapRegion_eq (W H : ℕ) (ymin xmin ymax xmax : ℚ) :
    mapRegion W H ymin xmin ymax xmax =
      (if (mapRegionRaw W H ymin xmin ymax xmax).2.2.1 ≤ 0 ∨
          (mapRegionRaw W H ymin xmin ymax xmax).2.2.2 ≤ 0 then none
       else some (mapRegionRaw W H ymin xmin ymax xmax)) := rfl

/-- Fact: `jsRound q ≥ 1` as soon as `q ≥ 1/2`. -/
theorem jsRound_ge_one {q : ℚ} (h : 1 / 2 ≤ q) : 1 ≤ jsRound q := by
  unfold jsRound
  rw [Rat.le_floor]
  push_cast
  linarith

/-! ### Claim theorems -/

/-- Claim C6: The Coordinate Mapper computes `x = round(xMin/1000*W)`,
`y = round(yMin/1000*H)`, `width = round((xMax-xMin)/1000*W)`,
`height = round((yMax-yMin)/1000*H)`, clamps `x`,`y` into image bounds and
the dimensions to remaining space (this is `specMapRegion`, transcribed
from §4.3, and it coincides with the source's computation); in particular
a 1000×1000 image with `box_2d=[0,0,500,500]` yields
`x=0, y=0, width=500, height=500`, and a 1000×500 image with
`box_2d=[900,900,1000,1000]` yields `x=900, y=450, width=100, height=50`. -/
theorem mapRegion_formula_and_scenarios :
    (∀ (W H : ℕ) (ymin xmin ymax xmax : ℚ),
      mapRegion W H ymin xmin ymax xmax = specMapRegion W H ymin xmin ymax xmax) ∧
    mapRegion 1000 1000 0 0 500 500 = some (0, 0, 500, 500) ∧
    mapRegion 1000 500 900 900 1000 1000 = some (900, 450, 100, 50) :=
  ⟨fun _ _ _ _ _ _ => rfl, by decide, by decide⟩

/-- Claim C7: A detection whose mapped rectangle has `w ≤ 0` or `h ≤ 0`
after rounding and clamping yields no PixelRegion: the mapper returns
`none`, such a detection is `skip`ped by the loop (so it is not counted and
does not fail the batch), and in particular the zero-area box
`box_2d=[500,500,500,500]` is rejected. -/
theorem mapRegion_rejects_degenerate :
    (∀ (W H : ℕ) (ymin xmin ymax xmax : ℚ),
      ((mapRegionRaw W H ymin xmin ymax xmax).2.2.1 ≤ 0 ∨
       (mapRegionRaw W H ymin xmin ymax xmax).2.2.2 ≤ 0) →
      mapRegion W H ymin xmin ymax xmax = none) ∧
    (∀ (W H : ℕ) (fields : List (String × Json)) (a b c d : ℚ),
      jLookup fields ("box_2d") =
        some (Json.arr [Json.num a, Json.num b, Json.num c, Json.num d]) →
      mapRegion W H a b c d = none →
      detStep W H (Json.obj fields) = DetStep.skip) ∧
    (∀ (ops : ImageOps) (radius : ℤ) (W H : ℕ) (ds : List Json)
       (img : Image) (n : ℕ) (det : Json),
      detStep W H det = DetStep.skip →
      blurLoop ops radius W H (det :: ds) img n = blurLoop ops radius W H ds img n) ∧
    mapRegion 1000 1000 500 500 500 500 = none := by
  refine ⟨?_, ?_, ?_, by decide⟩
  · intro W H ymin xmin ymax xmax h
    rw [mapRegion_eq, if_pos h]
  · intro W H fields a b c d hlook hmap
    simp only [detStep]
    rw [hlook]
    simp [jsFalsy, jsLengthVal, destructured, toNum, hmap]
  · intro ops radius W H ds img n det h
    rw [blurLoop, h]

/-- Claim C7 witness: the zero-area scenario exercises every hypothesis. -/
theorem mapRegion_rejects_degenerate_witness :
    ((mapRegionRaw 1000 1000 500 500 500 500).2.2.1 ≤ 0 ∨
     (mapRegionRaw 1000 1000 500 500 500 500).2.2.2 ≤ 0) ∧
    mapRegion 1000 1000 500 500 500 500 = none ∧
    detStep 1000 1000 (Json.obj [("box_2d",
      Json.arr [Json.num 500, Json.num 500, Json.num 500, Json.num 500])]) = DetStep.skip ∧
    blurLoop trivialOps 25 1000 1000 [Json.obj [("box_2d",
      Json.arr [Json.num 500, Json.num 500, Json.num 500, Json.num 500])]] ⟨1000, 1000, []⟩ 0 =
      blurLoop trivialOps 25 1000 1000 [] ⟨1000, 1000, []⟩ 0 := by
  have h1 : ((mapRegionRaw 1000 1000 500 500 500 500).2.2.1 ≤ 0 ∨
      (mapRegionRaw 1000 1000 500 500 500 500).2.2.2 ≤ 0) := by decide
  have h2 := mapRegion_rejects_degenerate.1 1000 1000 500 500 500 500 h1
  have h3 := mapRegion_rejects_degenerate.2.1 1000 1000
    [("box_2d", Json.arr [Json.num 500, Json.num 500, Json.num 500, Json.num 500])]
    500 500 500 500 rfl h2
  exact ⟨h1, h2, h3, mapRegion_rejects_degenerate.2.2.1 trivialOps 25 1000 1000 [] ⟨1000, 1000, []⟩ 0 _ h3⟩

/-- Claim C5 counterexample: a box with `xMax > xMin`, `yMax > yMin`, all
four values inside `[0,1000]`, and positive image dimensions, which the
mapper nevertheless rejects (`box_2d=[0,0,1,1]` on a 1×1 image rounds to a
zero-width rectangle), contradicting "such a detection is never rejected". -/
theorem mapRegion_inbounds_counterexample :
    (0 : ℚ) ≤ 0 ∧ (0 : ℚ) ≤ 1 ∧ (1 : ℚ) ≤ 1000 ∧
    (0 : ℚ) < 1 ∧ 0 < (1 : ℕ) ∧
    mapRegion 1 1 0 0 1 1 = none := by decide

/-- Claim C5 amended: for boxes with `xMax > xMin`, `yMax > yMin` inside
`[0,1000]` on a positive-size image **whose scaled box is at least half a
pixel in each direction** (`(xMax−xMin)·W ≥ 500` and `(yMax−yMin)·H ≥ 500`,
so the rounded dimensions are ≥ 1), the mapper always produces a region
with `0 ≤ x`, `0 ≤ y`, positive dimensions, `x + w ≤ W` and `y + h ≤ H`. -/
theorem mapRegion_inbounds (W H : ℕ) (ymin xmin ymax xmax : ℚ)
    (hW : 0 < W) (hH : 0 < H)
    (hx0 : 0 ≤ xmin) (hx1 : xmax ≤ 1000) (hy0 : 0 ≤ ymin) (hy1 : ymax ≤ 1000)
    (hxlt : xmin < xmax) (hylt : ymin < ymax)
    (hwide : 500 ≤ (xmax - xmin) * W) (htall : 500 ≤ (ymax - ymin) * H) :
    ∃ x y w h : ℤ, mapRegion W H ymin xmin ymax xmax = some (x, y, w, h) ∧
      0 ≤ x ∧ 0 ≤ y ∧ 0 < w ∧ 0 < h ∧ x + w ≤ (W : ℤ) ∧ y + h ≤ (H : ℤ) := by
  have hW1 : (1 : ℤ) ≤ (W : ℤ) := by exact_mod_cast hW
  have hH1 : (1 : ℤ) ≤ (H : ℤ) := by exact_mod_cast hH
  have hw0 : 1 ≤ jsRound ((xmax - xmin) / 1000 * W) := by
    apply jsRound_ge_one
    rw [div_mul_eq_mul_div, le_div_iff (by norm_num : (0:ℚ) < 1000)]
    linarith
  have hh0 : 1 ≤ jsRound ((ymax - ymin) / 1000 * H) := by
    apply jsRound_ge_one
    rw [div_mul_eq_mul_div, le_div_iff (by norm_num : (0:ℚ) < 1000)]
    linarith
  have hx : (0 : ℤ) ≤ max 0 (min (jsRound (xmin / 1000 * W)) ((W : ℤ) - 1)) :=
    le_max_left 0 _
  have hy : (0 : ℤ) ≤ max 0 (min (jsRound (ymin / 1000 * H)) ((H : ℤ) - 1)) :=
    le_max_left 0 _
  have hxW : max 0 (min (jsRound (xmin / 1000 * W)) ((W : ℤ) - 1)) ≤ (W : ℤ) - 1 :=
    max_le (by omega) (min_le_right _ _)
  have hyH : max 0 (min (jsRound (ymin / 1000 * H)) ((H : ℤ) - 1)) ≤ (H : ℤ) - 1 :=
    max_le (by omega) (min_le_right _ _)
  have hw : 1 ≤ min (jsRound ((xmax - xmin) / 1000 * W))
      ((W : ℤ) - max 0 (min (jsRound (xmin / 1000 * W)) ((W : ℤ) - 1))) :=
    le_min hw0 (by omega)
  have hh : 1 ≤ min (jsRound ((ymax - ymin) / 1000 * H))
      ((H : ℤ) - max 0 (min (jsRound (ymin / 1000 * H)) ((H : ℤ) - 1))) :=
    le_min hh0 (by omega)
  refine ⟨max 0 (min (jsRound (xmin / 1000 * W)) ((W : ℤ) - 1)),
    max 0 (min (jsRound (ymin / 1000 * H)) ((H : ℤ) - 1)),
    min (jsRound ((xmax - xmin) / 1000 * W))
      ((W : ℤ) - max 0 (min (jsRound (xmin / 1000 * W)) ((W : ℤ) - 1))),
    min (jsRound ((ymax - ymin) / 1000 * H))
      ((H : ℤ) - max 0 (min (jsRound (ymin / 1000 * H)) ((H : ℤ) - 1))),
    ?_, hx, hy, by omega, by omega, ?_, ?_⟩
  · rw [mapRegion_eq, mapRegionRaw_eq, if_neg (by push_neg; constructor <;> simp <;> omega)]
  · have := min_le_right (jsRound ((xmax - xmin) / 1000 * W))
      ((W : ℤ) - max 0 (min (jsRound (xmin / 1000 * W)) ((W : ℤ) - 1)))
    omega
  · have := min_le_right (jsRound ((ymax - ymin) / 1000 * H))
      ((H : ℤ) - max 0 (min (jsRound (ymin / 1000 * H)) ((H : ℤ) - 1)))
    omega

/-- Claim C5 amended witness: the `[0,0,500,500]` box on a 1000×1000 image
satisfies every hypothesis. -/
theorem mapRegion_inbounds_witness :
    0 < (1000 : ℕ) ∧ (0 : ℚ) ≤ 0 ∧ (500 : ℚ) ≤ 1000 ∧ (0 : ℚ) < 500 ∧
    (500 : ℚ) ≤ (500 - 0) * (1000 : ℕ) ∧
    (∃ x y w h : ℤ, mapRegion 1000 1000 0 0 500 500 = some (x, y, w, h) ∧
      0 ≤ x ∧ 0 ≤ y ∧ 0 < w ∧ 0 < h ∧ x + w ≤ (1000 : ℤ) ∧ y + h ≤ (1000 : ℤ)) :=
  ⟨by decide, by decide, by decide, by decide, by norm_num,
   mapRegion_inbounds 1000 1000 0 0 500 500 (by decide) (by decide) (by decide)
     (by decide) (by decide) (by decide) (by decide) (by decide)
     (by norm_num) (by norm_num)⟩


/-- Claim C4 counterexample: a payload where the fenced block is present but
unparseable while a parseable `[ ... ]` substring exists: the claimed chain
(`specFallbackChain`, step 3 tried "if that fails") would recover `[1,2]`,
but `parseJsonResponse` returns the empty array without attempting the
bracket search. -/
theorem parseJsonResponse_chain_counterexample :
    parseJsonResponse ("x ```notjson``` [1,2]") = Json.arr [] ∧
    specFallbackChain ("x ```notjson``` [1,2]") = Json.arr [Json.num 1, Json.num 2] ∧
    Json.arr [] ≠ Json.arr [Json.num 1, Json.num 2] :=
  ⟨rfl, rfl, by simp⟩

/-- Claim C4 amended: `parseJsonResponse`'s actual chain: direct parse
first; if it fails and a fenced code block is present, the block's inner
parse is the final result (empty on inner failure — the bracket search is
*not* attempted); the bracket search runs only when no fenced block is
present; empty when every attempted strategy fails. -/
theorem parseJsonResponse_chain (text : String) :
    (∀ v, jsonParse text = some v → parseJsonResponse text = v) ∧
    (jsonParse text = none → ∀ inner, fencedInner text = some inner →
      parseJsonResponse text = (jsonParse inner).getD (Json.arr [])) ∧
    (jsonParse text = none → fencedInner text = none →
      parseJsonResponse text = ((bracketSub text).bind jsonParse).getD (Json.arr [])) := by
  refine ⟨?_, ?_, ?_⟩
  · intro v h
    unfold parseJsonResponse
    rw [h]
  · intro h inner hf
    unfold parseJsonResponse
    rw [h, hf]
    cases hi : jsonParse inner <;> simp [hi]
  · intro h hf
    unfold parseJsonResponse
    rw [h, hf]
    cases hb : bracketSub text with
    | none => simp
    | some s => cases hs : jsonParse s <;> simp [hs]

/-- Claim C4 amended witness: the counterexample text exercises the
fenced-block branch of the amended chain. -/
theorem parseJsonResponse_chain_witness :
    jsonParse ("x ```notjson``` [1,2]") = none ∧
    fencedInner ("x ```notjson``` [1,2]") = some ("notjson") ∧
    parseJsonResponse ("x ```notjson``` [1,2]") =
      (jsonParse ("notjson")).getD (Json.arr []) :=
  ⟨rfl, rfl, (parseJsonResponse_chain ("x ```notjson``` [1,2]")).2.1 rfl ("notjson") rfl⟩

/-- Claim C8: when no fallback strategy can parse the text (the direct
parse fails, a fenced block's inner text fails if one is present, and the
bracketed substring fails if one is present), both response parsers return
the empty sequence; being total Lean functions, they never raise. -/
theorem parse_total_on_failure (text : String)
    (h1 : jsonParse text = none)
    (h2 : ∀ inner, fencedInner text = some inner → jsonParse inner = none)
    (h3 : ∀ s, bracketSub text = some s → jsonParse s = none) :
    parseJsonResponse text = Json.arr [] ∧ parseAndValidateDetections text = [] := by
  constructor
  · unfold parseJsonResponse
    rw [h1]
    cases hf : fencedInner text with
    | some inner => simp [h2 inner hf]
    | none =>
      cases hb : bracketSub text with
      | some s => simp [h3 s hb]
      | none => rfl
  · unfold parseAndValidateDetections
    rw [h1]
    cases hf : fencedInner text with
    | some inner =>
      cases hb : bracketSub text with
      | some s => simp [h2 inner hf, h3 s hb]
      | none => simp [h2 inner hf]
    | none => rfl

/-- Claim C8 witness: plain prose text fails every strategy. -/
theorem parse_total_on_failure_witness :
    jsonParse ("hello world") = none ∧
    parseJsonResponse ("hello world") = Json.arr [] ∧
    parseAndValidateDetections ("hello world") = [] :=
  ⟨rfl,
   (parse_total_on_failure ("hello world") rfl
      (fun _ h => nomatch h) (fun _ h => nomatch h)).1,
   (parse_total_on_failure ("hello world") rfl
      (fun _ h => nomatch h) (fun _ h => nomatch h)).2⟩

/-- Claim C9: the Detection Validator keeps exactly the records that are
non-null objects whose `box_2d` field is an array of exactly 4 numeric
elements (`specValidDetection`, with no range constraint on the values);
discarding is silent (a filter, never failing the batch) and the output
count never exceeds the input count. -/
theorem detectionValidator_spec :
    (∀ j, isValidBoundingBox j = true ↔ specValidDetection j) ∧
    (∀ text xs, jsonParse text = some (Json.arr xs) →
      parseAndValidateDetections text = xs.filter isValidBoundingBox ∧
      (parseAndValidateDetections text).length ≤ xs.length ∧
      ∀ j ∈ parseAndValidateDetections text, j ∈ xs ∧ specValidDetection j) := by
  have hiff : ∀ j, isValidBoundingBox j = true ↔ specValidDetection j := by
    intro j
    constructor
    · intro h
      cases j with
      | obj fields =>
        simp only [isValidBoundingBox] at h
        cases hl : jLookup fields ("box_2d") with
        | none => rw [hl] at h; simp at h
        | some v =>
          rw [hl] at h
          cases v with
          | arr bs =>
            simp only [Bool.and_eq_true, decide_eq_true_eq, List.all_eq_true] at h
            refine ⟨fields, bs, rfl, hl, h.1, ?_⟩
            intro x hx
            have hx' := h.2 x hx
            cases x <;> simp_all
          | null => simp at h
          | bool b => simp at h
          | num q => simp at h
          | str s => simp at h
          | obj o => simp at h
      | null => simp [isValidBoundingBox] at h
      | bool b => simp [isValidBoundingBox] at h
      | num q => simp [isValidBoundingBox] at h
      | str s => simp [isValidBoundingBox] at h
      | arr xs => simp [isValidBoundingBox] at h
    · rintro ⟨fields, bs, rfl, hl, hlen, hnum⟩
      simp only [isValidBoundingBox]
      rw [hl]
      simp only [Bool.and_eq_true, decide_eq_true_eq, List.all_eq_true]
      refine ⟨hlen, ?_⟩
      intro x hx
      obtain ⟨q, rfl⟩ := hnum x hx
      rfl
  refine ⟨hiff, ?_⟩
  intro text xs h
  have hpad : parseAndValidateDetections text = xs.filter isValidBoundingBox := by
    unfold parseAndValidateDetections
    rw [h]
  refine ⟨hpad, ?_, ?_⟩
  · rw [hpad]
    exact List.length_filter_le _ _
  · intro j hj
    rw [hpad] at hj
    have hm := List.mem_filter.mp hj
    exact ⟨hm.1, (hiff j).mp hm.2⟩

/-- Claim C9 witness: a payload mixing one structurally valid record (with
out-of-range values, which the validator must not reject at this stage)
and one invalid record. -/
theorem detectionValidator_spec_witness :
    jsonParse ("[\x7b\"box_2d\": [0, 2000, 10, 3]\x7d, 7]") =
      some (Json.arr [Json.obj [("box_2d",
        Json.arr [Json.num 0, Json.num 2000, Json.num 10, Json.num 3])], Json.num 7]) ∧
    parseAndValidateDetections ("[\x7b\"box_2d\": [0, 2000, 10, 3]\x7d, 7]") =
      ([Json.obj [("box_2d",
        Json.arr [Json.num 0, Json.num 2000, Json.num 10, Json.num 3])],
        Json.num 7].filter isValidBoundingBox) ∧
    (parseAndValidateDetections ("[\x7b\"box_2d\": [0, 2000, 10, 3]\x7d, 7]")).length ≤ 2 := by
  have h := detectionValidator_spec.2 ("[\x7b\"box_2d\": [0, 2000, 10, 3]\x7d, 7]")
    [Json.obj [("box_2d", Json.arr [Json.num 0, Json.num 2000, Json.num 10, Json.num 3])],
     Json.num 7] rfl
  exact ⟨rfl, h.1, h.2.1⟩

/-- Projection of a `blurRegions` outcome to the filesystem it leaves
behind. -/
def resultFS : BlurResult → FS
  | BlurResult.ok _ fs => fs
  | BlurResult.error fs => fs

/-- A loop over detections that are all skipped leaves the buffer and the
count unchanged. -/
theorem blurLoop_all_skip (ops : ImageOps) (radius : ℤ) (W H : ℕ)
    (dets : List Json) (img : Image) (n : ℕ)
    (h : ∀ det ∈ dets, detStep W H det = DetStep.skip) :
    blurLoop ops radius W H dets img n = some (img, n) := by
  induction dets with
  | nil => rfl
  | cons det ds ih =>
    rw [blurLoop, h det (List.mem_cons_self det ds)]
    exact ih (fun x hx => h x (List.mem_cons_of_mem det hx))

/-- When the image file exists, the backup step cannot throw: it either
finds the backup present or copies the image bytes. -/
theorem ensureBackup_of_exists (fs : FS) (p : String) (b : FileData)
    (h : fsLookup fs p = some b) :
    ensureBackup fs p = some fs ∨
      (ensureBackup fs p = some (fsWrite fs (backupPathOf p) b) ∧
       fsLookup fs (backupPathOf p) = none) := by
  unfold ensureBackup
  by_cases hb : (fsLookup fs (backupPathOf p)).isSome
  · left
    simp [hb]
  · right
    refine ⟨by simp [hb, h], Option.not_isSome_iff_eq_none.mp hb⟩

/-- Claim C1: the backup-creation step is idempotent: when no backup exists
for `p` and the image is present with bytes `b`, the first call creates the
backup with content `b`; after the image is then mutated (overwritten with
arbitrary bytes `d'`), a second call leaves everything unchanged and the
backup still holds the pre-mutation bytes `b`. -/
theorem ensureBackup_idempotent (fs : FS) (p : String) (b d' : FileData)
    (h1 : fsLookup fs (backupPathOf p) = none)
    (h2 : fsLookup fs p = some b) :
    ∃ fs1, ensureBackup fs p = some fs1 ∧
      ensureBackup (fsWrite fs1 p d') p = some (fsWrite fs1 p d') ∧
      fsLookup (fsWrite fs1 p d') (backupPathOf p) = some b := by
  have hne : p ≠ backupPathOf p := fun h => backupPathOf_ne p h.symm
  have hbp : fsLookup (fsWrite (fsWrite fs (backupPathOf p) b) p d') (backupPathOf p) =
      some b := by
    rw [fsLookup_write_ne _ p _ d' hne]
    exact fsLookup_write_self fs (backupPathOf p) b
  refine ⟨fsWrite fs (backupPathOf p) b, ?_, ?_, hbp⟩
  · simp [ensureBackup, h1, h2]
  · simp [ensureBackup, hbp]

/-- Claim C1 witness: a fresh `photo.png` with bytes `[1,2]`, mutated to
`[9]` between the two calls. -/
theorem ensureBackup_idempotent_witness :
    fsLookup [("photo.png", FileData.raw [1, 2])] (backupPathOf ("photo.png")) = none ∧
    (∃ fs1, ensureBackup [("photo.png", FileData.raw [1, 2])] "photo.png" = some fs1 ∧
      ensureBackup (fsWrite fs1 ("photo.png") (FileData.raw [9])) "photo.png" =
        some (fsWrite fs1 ("photo.png") (FileData.raw [9])) ∧
      fsLookup (fsWrite fs1 ("photo.png") (FileData.raw [9])) (backupPathOf ("photo.png")) =
        some (FileData.raw [1, 2])) :=
  ⟨by decide, ensureBackup_idempotent _ ("photo.png") _ _ (by decide) rfl⟩

/-- Claim C2 counterexample: `a_backupx.png` does *not* match the backup
naming convention (its extension-stripped basename does not end in
`_backup`), yet `restoreFromBackup` accepts it — merely because the path
*contains* `_backup` — and mutates the filesystem (writes `ax.png`, deletes
`a_backupx.png`) instead of failing with no mutation. -/
theorem restore_convention_counterexample :
    specIsBackupName ("a_backupx.png") = false ∧
    restoreFromBackup [("a_backupx.png", FileData.raw [1, 2, 3])] "a_backupx.png" =
      RestoreResult.restored [("ax.png", FileData.raw [1, 2, 3])] ∧
    restoreFromBackup [("a_backupx.png", FileData.raw [1, 2, 3])] "a_backupx.png" ≠
      RestoreResult.notBackup ∧
    ([("ax.png", FileData.raw [1, 2, 3])] : FS) ≠ [("a_backupx.png", FileData.raw [1, 2, 3])] := by
  refine ⟨by decide, by decide, by decide, by decide⟩

/-- Claim C2 amended: restore recognizes a backup reference by *substring
containment* of `_backup` anywhere in the path (not by the
marker-before-extension convention): a non-empty path without that
substring fails with the invalid-reference outcome and no mutation; a path
containing it has the first `_backup` occurrence deleted from its basename
to obtain the original path, which is overwritten with the file's bytes
before the given file is deleted; a contained-but-missing file gives the
I/O-error outcome with no mutation. -/
theorem restoreFromBackup_spec (fs : FS) (p : String) (hne : p ≠ "") :
    (strIncludes p ("_backup") = false → restoreFromBackup fs p = RestoreResult.notBackup) ∧
    (∀ d, strIncludes p ("_backup") = true → fsLookup fs p = some d →
      restoreFromBackup fs p = RestoreResult.restored
        (fsRemove (fsWrite fs (joinPath (dirname p)
          (replaceFirst (basenameExt p (extname p)) "_backup" "" ++ extname p)) d) p)) ∧
    (strIncludes p ("_backup") = true → fsLookup fs p = none →
      restoreFromBackup fs p = RestoreResult.ioError fs) := by
  refine ⟨?_, ?_, ?_⟩
  · intro h
    simp [restoreFromBackup, hne, h]
  · intro d h hl
    simp [restoreFromBackup, hne, h, hl]
  · intro h hl
    simp [restoreFromBackup, hne, h, hl]

/-- Claim C2 amended witness: both branches: a plain path is rejected, a
conventional backup path is restored. -/
theorem restoreFromBackup_spec_witness :
    ("plain.png" : String) ≠ "" ∧
    restoreFromBackup ([] : FS) "plain.png" = RestoreResult.notBackup ∧
    restoreFromBackup [("photo_backup.png", FileData.raw [9]), ("photo.png", FileData.raw [1])]
        "photo_backup.png" =
      RestoreResult.restored
        (fsRemove (fsWrite
          [("photo_backup.png", FileData.raw [9]), ("photo.png", FileData.raw [1])]
          (joinPath (dirname ("photo_backup.png"))
            (replaceFirst (basenameExt ("photo_backup.png") (extname ("photo_backup.png")))
              "_backup" "" ++ extname ("photo_backup.png")))
          (FileData.raw [9])) "photo_backup.png") := by
  refine ⟨by decide, ?_, ?_⟩
  · exact (restoreFromBackup_spec [] "plain.png" (by decide)).1 (by decide)
  · exact (restoreFromBackup_spec _ ("photo_backup.png") (by decide)).2.1
      (FileData.raw [9]) (by decide) (by decide)

/-- Claim C3 counterexample: a call whose only detection yields no valid
pixel region (a `null` record: reading its `box_2d` throws) ends in the
caught-error path, not in the claimed "no-op with a reported count of 0":
the image file itself is still unwritten, but the outcome is an error. -/
theorem blurRegions_noop_counterexample :
    detStep 10 10 Json.null = DetStep.err ∧
    blurRegions trivialOps 50 [("img.png", FileData.img ⟨10, 10, []⟩)] "img.png" [Json.null] =
      BlurResult.error [("img_backup.png", FileData.img ⟨10, 10, []⟩),
        ("img.png", FileData.img ⟨10, 10, []⟩)] ∧
    blurRegions trivialOps 50 [("img.png", FileData.img ⟨10, 10, []⟩)] "img.png" [Json.null] ≠
      BlurResult.ok 0 [("img_backup.png", FileData.img ⟨10, 10, []⟩),
        ("img.png", FileData.img ⟨10, 10, []⟩)] := by
  refine ⟨by decide, by decide, by decide⟩

/-- Claim C3 amended: when the image decodes and every detection is skipped
by the guards (falsy or wrong-length `box_2d`, or non-positive mapped
dimensions), the call completes as a non-error with a reported count of 0
and the image file's bytes are untouched (only a backup may appear). -/
theorem blurRegions_all_skipped (ops : ImageOps) (intensity : ℚ) (fs : FS)
    (p : String) (dets : List Json) (i : Image)
    (himg : fsLookup fs p = some (FileData.img i))
    (hskip : ∀ det ∈ dets, detStep i.width i.height det = DetStep.skip) :
    ∃ fs', blurRegions ops intensity fs p dets = BlurResult.ok 0 fs' ∧
      fsLookup fs' p = fsLookup fs p := by
  have hl := blurLoop_all_skip ops (min (max (jsRound (intensity / 2)) 1) 100)
    i.width i.height dets i 0 hskip
  rcases ensureBackup_of_exists fs p (FileData.img i) himg with hEB | ⟨hEB, _⟩
  · refine ⟨fs, ?_, rfl⟩
    simp [blurRegions, hEB, himg, decodeFile, hl]
  · have hp1 : fsLookup (fsWrite fs (backupPathOf p) (FileData.img i)) p =
        some (FileData.img i) := by
      rw [fsLookup_write_ne _ _ _ _ (backupPathOf_ne p)]
      exact himg
    refine ⟨fsWrite fs (backupPathOf p) (FileData.img i), ?_, hp1.trans himg.symm⟩
    simp [blurRegions, hEB, hp1, decodeFile, hl]

/-- Claim C3 amended witness: one zero-area detection on a decodable
image. -/
theorem blurRegions_all_skipped_witness :
    fsLookup [("img.png", FileData.img ⟨10, 10, []⟩)] "img.png" =
      some (FileData.img ⟨10, 10, []⟩) ∧
    (∀ det ∈ [Json.obj [("box_2d",
        Json.arr [Json.num 500, Json.num 500, Json.num 500, Json.num 500])]],
      detStep 10 10 det = DetStep.skip) ∧
    (∃ fs', blurRegions trivialOps 50 [("img.png", FileData.img ⟨10, 10, []⟩)] "img.png"
        [Json.obj [("box_2d",
          Json.arr [Json.num 500, Json.num 500, Json.num 500, Json.num 500])]] =
        BlurResult.ok 0 fs' ∧
      fsLookup fs' ("img.png") = fsLookup [("img.png", FileData.img ⟨10, 10, []⟩)] "img.png") :=
  ⟨rfl, by decide,
   blurRegions_all_skipped trivialOps 50 _ ("img.png") _ ⟨10, 10, []⟩ rfl (by decide)⟩

/-- Claim C10: on a path with no existing backup and an existing image
file, the backup (holding the image's current bytes) is created before any
detection is examined, so it exists in the resulting filesystem whatever
happens afterwards — error or success — and when every detection is
skipped the call returns a count of 0 with the filesystem extended by
exactly the backup, the original file untouched. -/
theorem blurRegions_backup_first (ops : ImageOps) (intensity : ℚ) (fs : FS)
    (p : String) (dets : List Json) (b : FileData)
    (h1 : fsLookup fs (backupPathOf p) = none)
    (h2 : fsLookup fs p = some b) :
    fsLookup (resultFS (blurRegions ops intensity fs p dets)) (backupPathOf p) = some b ∧
    (∀ i, b = FileData.img i →
      (∀ det ∈ dets, detStep i.width i.height det = DetStep.skip) →
      blurRegions ops intensity fs p dets =
        BlurResult.ok 0 (fsWrite fs (backupPathOf p) b) ∧
      fsLookup (fsWrite fs (backupPathOf p) b) p = some b) := by
  have hnep : p ≠ backupPathOf p := fun h => backupPathOf_ne p h.symm
  have hEB : ensureBackup fs p = some (fsWrite fs (backupPathOf p) b) := by
    simp [ensureBackup, h1, h2]
  have hbp1 : fsLookup (fsWrite fs (backupPathOf p) b) (backupPathOf p) = some b :=
    fsLookup_write_self fs (backupPathOf p) b
  have hp1 : fsLookup (fsWrite fs (backupPathOf p) b) p = some b := by
    rw [fsLookup_write_ne _ _ _ _ (backupPathOf_ne p)]
    exact h2
  constructor
  · unfold blurRegions
    rw [hEB]
    cases hd : decodeFile b with
    | none => simp [hp1, hd, resultFS, hbp1]
    | some img =>
      cases hbl : blurLoop ops (min (max (jsRound (intensity / 2)) 1) 100)
          img.width img.height dets img 0 with
      | none => simp [hp1, hd, hbl, resultFS, hbp1]
      | some pr =>
        obtain ⟨img2, n⟩ := pr
        by_cases hn : 0 < n
        · simp [hp1, hd, hbl, hn, resultFS]
          rw [fsLookup_write_ne _ _ _ _ hnep]
          exact hbp1
        · simp [hp1, hd, hbl, hn, resultFS, hbp1]
  · intro i hbi hskip
    subst hbi
    have hl := blurLoop_all_skip ops (min (max (jsRound (intensity / 2)) 1) 100)
      i.width i.height dets i 0 hskip
    exact ⟨by simp [blurRegions, hEB, hp1, decodeFile, hl], hp1⟩

/-- Claim C10 witness: a raw (undecodable) file: the call errors, yet the
backup exists in the resulting filesystem. -/
theorem blurRegions_backup_first_witness :
    fsLookup [("img.png", FileData.raw [7])] (backupPathOf ("img.png")) = none ∧
    fsLookup (resultFS (blurRegions trivialOps 50 [("img.png", FileData.raw [7])]
      "img.png" [Json.null])) (backupPathOf ("img.png")) = some (FileData.raw [7]) :=
  ⟨by decide,
   (blurRegions_backup_first trivialOps 50 [("img.png", FileData.raw [7])] "img.png"
     [Json.null] (FileData.raw [7]) (by decide) rfl).1⟩

end BananaStudio
